import Mathlib

/-
  Verification development for the py-enforce enforcement engine.

  Shallow embedding of:
    src/py_enforce/decorators.py          (enforce)
    src/py_enforce/validators/bases.py    (Validator / GeneratorValidator)
    src/py_enforce/validators/not_empty.py (NotEmpty)
    src/py_enforce/validators/unique.py   (Unique)

  Python generators are modelled as resumable state machines (`Gen`) with a
  step function `genNext` mirroring one `next()` call; `enforce`'s per-call
  argument loop is `enforceParam` / `enforceCall`.  Python values are an
  inductive `PyVal`; equality/hashing used by `set` is modelled by mapping
  each hashable value to a canonical key (`tryKey`), mirroring Python's
  cross-type numeric equality (1 == 1.0 == True).
-/

namespace PyEnforce

/-- Scalar (atomic, always hashable) Python values.  Floats are restricted to
integral values, which is all this development uses; Python guarantees
`hash(n) = hash(float(n))` and `n == float(n)` for these. -/
inductive PyScalar where
  | int (n : Int)
  | float (n : Int)
  | bool (b : Bool)
  | str (s : String)
  | none
deriving DecidableEq, Repr

/-- Canonical equality/hash key of a scalar: numeric values collapse to their
numeric value (Python: 1 == 1.0 == True share one hash bucket). -/
inductive SKey where
  | num (n : Int)
  | strK (s : String)
  | noneK
deriving DecidableEq, Repr

/-- Canonical equality/hash key of a hashable Python value. -/
inductive PyKey where
  | base (k : SKey)
  | tupK (ks : List SKey)
  | rangeK (n : Nat)
  | iterK
deriving DecidableEq, Repr

/-- Materialized (non-generator) Python values.  Tuples and set literals carry
scalar elements, which covers every value this repository constructs;
`iterObj` stands for a lazily-produced non-generator iterator such as a
`map`/`filter` object (not Sized, not a Collection). -/
inductive PyVal where
  | scalar (s : PyScalar)
  | list (xs : List PyVal)
  | tuple (xs : List PyScalar)
  | setV (xs : List PyScalar)
  | rangeV (n : Nat)
  | iterObj
deriving Repr

/-- `type(value).__name__` for the modelled values. -/
def typeName : PyVal → String
  | .scalar (.int _) => "int"
  | .scalar (.float _) => "float"
  | .scalar (.bool _) => "bool"
  | .scalar (.str _) => "str"
  | .scalar .none => "NoneType"
  | .list _ => "list"
  | .tuple _ => "tuple"
  | .setV _ => "set"
  | .rangeV _ => "range"
  | .iterObj => "map"

def scalarKey : PyScalar → SKey
  | .int n => .num n
  | .float n => .num n
  | .bool b => .num (cond b 1 0)
  | .str s => .strK s
  | .none => .noneK

/-- Python `hash(value)`: `some` key when the value is hashable, `none` when
hashing raises `TypeError` (lists and sets are unhashable). -/
def tryKey : PyVal → Option PyKey
  | .scalar s => some (.base (scalarKey s))
  | .tuple xs => some (.tupK (xs.map scalarKey))
  | .setV _ => none
  | .list _ => none
  | .rangeV n => some (.rangeK n)
  | .iterObj => some .iterK

/-- Insertion into a Python set, represented as a duplicate-free key list. -/
def insertKey (s : List PyKey) (k : PyKey) : List PyKey :=
  if k ∈ s then s else s ++ [k]

/-- Elements produced by iterating a materialized value (`iter(value)`):
strings iterate over one-character strings, ranges over their integers. -/
def elems : PyVal → List PyVal
  | .scalar (.str s) => s.toList.map fun c => .scalar (.str (String.mk [c]))
  | .scalar _ => []
  | .list xs => xs
  | .tuple xs => xs.map .scalar
  | .setV xs => xs.map .scalar
  | .rangeV n => (List.range n).map fun i => .scalar (.int (Int.ofNat i))
  | .iterObj => []

/-- `isinstance(value, collections.abc.Sized)`: the value supports `len()`. -/
def isSized : PyVal → Bool
  | .scalar (.str _) => true
  | .scalar _ => false
  | .list _ => true
  | .tuple _ => true
  | .setV _ => true
  | .rangeV _ => true
  | .iterObj => false

/-- `len(value)` for Sized values (0 otherwise; never consulted then). -/
def pyLen (v : PyVal) : Nat := (elems v).length

/-- `isinstance(value, collections.abc.Collection)`: sized, iterable
container.  Generators and map/filter iterators are not Collections. -/
def isCollection : PyVal → Bool
  | .scalar (.str _) => true
  | .scalar _ => false
  | .list _ => true
  | .tuple _ => true
  | .setV _ => true
  | .rangeV _ => true
  | .iterObj => false

/-- `isinstance(value, set)`. -/
def isSetVal : PyVal → Bool
  | .setV _ => true
  | _ => false

/-- The message payloads of the raise sites in the repository, one constructor
per `raise` statement (fields are the interpolated names). -/
inductive ErrMsg where
  /-- NotEmpty.validate: value does not support len() (function, type, parameter). -/
  | notEmptySized (funcName typeName paramName : String)
  /-- NotEmpty: parameter cannot be empty (parameter, function). -/
  | notEmptyEmpty (paramName funcName : String)
  /-- Unique.validate: value is not a Collection (function, type, parameter). -/
  | uniqueNotCollection (funcName typeName paramName : String)
  /-- Unique: parameter must contain unique elements (parameter, function). -/
  | uniqueDuplicate (paramName funcName : String)
  /-- enforce: parameter is a generator but the validator does not support
  generators (parameter, function, validator class name). -/
  | generatorUnsupported (paramName funcName validatorName : String)
  /-- Builtin TypeError from hashing an unhashable element (its type name). -/
  | unhashable (typeName : String)
deriving DecidableEq, Repr

/-- The error taxonomy: `TypeError` (usage error) vs `ValidationError`. -/
inductive PyErr where
  | typeErr (m : ErrMsg)
  | valErr (m : ErrMsg)
deriving DecidableEq, Repr

/-- Python `set(iterable)` construction: fold the elements into a key set,
raising the builtin unhashable `TypeError` at the first unhashable element. -/
def pySetKeys : List PyKey → List PyVal → Except PyErr (List PyKey)
  | acc, [] => .ok acc
  | acc, v :: vs =>
    match tryKey v with
    | Option.none => .error (.typeErr (.unhashable (typeName v)))
    | some k => pySetKeys (insertKey acc k) vs

/-- The key set of a list of hashable values (unhashable ones are skipped;
only used under an all-hashable hypothesis). -/
def seenKeys (vs : List PyVal) : List PyKey :=
  vs.foldl (fun s v => match tryKey v with | some k => insertKey s k | Option.none => s) []

/-- Every element is hashable. -/
def allHashable (vs : List PyVal) : Bool :=
  vs.all fun v => (tryKey v).isSome

/-- `NotEmpty.validate` (validators/not_empty.py). -/
def notEmptyValidate (value : PyVal) (funcName paramName : String) : Except PyErr Unit :=
  if !isSized value then
    .error (.typeErr (.notEmptySized funcName (typeName value) paramName))
  else if pyLen value = 0 then
    .error (.valErr (.notEmptyEmpty paramName funcName))
  else
    .ok ()

/-- `Unique.validate` (validators/unique.py): Collection check, trivial pass
for `set` instances, then `len(value) != len(set(value))`. -/
def uniqueValidate (value : PyVal) (funcName paramName : String) : Except PyErr Unit :=
  if !isCollection value then
    .error (.typeErr (.uniqueNotCollection funcName (typeName value) paramName))
  else if isSetVal value then
    .ok ()
  else
    match pySetKeys [] (elems value) with
    | .error e => .error e
    | .ok ks =>
      if pyLen value ≠ ks.length then
        .error (.valErr (.uniqueDuplicate paramName funcName))
      else
        .ok ()

/-- Generator objects, as resumable machines.  `source` is a user generator
with its not-yet-produced elements; the wrapper constructors are the
suspended frames of `NotEmpty.wrap_generator` and `Unique.wrap_generator`
(`seen` and `pending` store hash keys, as Python sets do; `pending` is the
value yielded but whose `seen.add` has not run yet); `closed` is a generator
that finished or raised. -/
inductive Gen where
  | source (rest : List PyVal)
  | notEmptyW (started : Bool) (funcName paramName : String) (inner : Gen)
  | uniqueW (seen : List PyKey) (pending : Option PyKey)
      (funcName paramName : String) (inner : Gen)
  | closed
deriving Repr

/-- Outcome of one `next()` call. -/
inductive PullRes where
  | yielded (v : PyVal)
  | stopped
  | failed (e : PyErr)
deriving Repr

/-- `seen` after resuming: the deferred `seen.add(val)` of the pending value. -/
def stepSeen (seen : List PyKey) (pending : Option PyKey) : List PyKey :=
  match pending with
  | Option.none => seen
  | some k => insertKey seen k

/-- One `next()` call on a generator, returning the outcome and the new
state.  Mirrors the bodies of the two `wrapper` generator functions. -/
def genNext : Gen → PullRes × Gen
  | .closed => (.stopped, .closed)
  | .source xs =>
    match xs with
    | [] => (.stopped, .closed)
    | v :: rest => (.yielded v, .source rest)
  | .notEmptyW started fn pn inner =>
    match genNext inner with
    | (.yielded v, inner') => (.yielded v, .notEmptyW true fn pn inner')
    | (.stopped, _) =>
      if started then (.stopped, .closed)
      else (.failed (.valErr (.notEmptyEmpty pn fn)), .closed)
    | (.failed e, _) => (.failed e, .closed)
  | .uniqueW seen pending fn pn inner =>
    let seen' := stepSeen seen pending
    match genNext inner with
    | (.yielded v, inner') =>
      match tryKey v with
      | Option.none => (.failed (.typeErr (.unhashable (typeName v))), .closed)
      | some k =>
        if k ∈ seen' then (.failed (.valErr (.uniqueDuplicate pn fn)), .closed)
        else (.yielded v, .uniqueW seen' (some k) fn pn inner')
    | (.stopped, _) => (.stopped, .closed)
    | (.failed e, _) => (.failed e, .closed)

/-- Number of elements the underlying user stream can still produce. -/
def Gen.remaining : Gen → Nat
  | .source xs => xs.length
  | .notEmptyW _ _ _ inner => inner.remaining
  | .uniqueW _ _ _ _ inner => inner.remaining
  | .closed => 0

theorem genNext_yielded_remaining :
    ∀ (g : Gen) (v : PyVal) (g' : Gen),
      genNext g = (.yielded v, g') → g'.remaining < g.remaining := by
  intro g
  induction g with
  | source xs =>
    intro v g' h
    cases xs with
    | nil => simp [genNext] at h
    | cons a rest =>
      simp [genNext] at h
      obtain ⟨_, h2⟩ := h
      subst h2
      simp [Gen.remaining]
  | notEmptyW started fn pn inner ih =>
    intro v g' h
    simp only [genNext] at h
    cases hin : genNext inner with
    | mk res inner' =>
      rw [hin] at h
      cases res with
      | yielded w =>
        simp at h
        obtain ⟨h1, h2⟩ := h
        subst h2
        simpa [Gen.remaining] using ih w inner' hin
      | stopped => cases started <;> simp at h
      | failed e => simp at h
  | uniqueW seen pending fn pn inner ih =>
    intro v g' h
    simp only [genNext] at h
    cases hin : genNext inner with
    | mk res inner' =>
      rw [hin] at h
      cases res with
      | yielded w =>
        cases htk : tryKey w with
        | none => simp [htk] at h
        | some k =>
          by_cases hmem : k ∈ stepSeen seen pending
          · simp [htk, hmem] at h
          · simp [htk, hmem] at h
            obtain ⟨h1, h2⟩ := h
            subst h2
            simpa [Gen.remaining] using ih w inner' hin
      | stopped => simp at h
      | failed e => simp at h
  | closed =>
    intro v g' h
    simp [genNext] at h

/-- `list(gen)`: drain a generator to a list, propagating a raised error. -/
def drain (g : Gen) : Except PyErr (List PyVal) :=
  match h : genNext g with
  | (.stopped, _) => .ok []
  | (.failed e, _) => .error e
  | (.yielded v, g') =>
    match drain g' with
    | .ok vs => .ok (v :: vs)
    | .error e => .error e
termination_by g.remaining
decreasing_by exact genNext_yielded_remaining g v g' h

/-- Attempt `n` pulls from a generator: the values obtained, the error raised
(if any; pulling stops there), and the final generator state.  Pulls on an
exhausted generator keep returning StopIteration. -/
def runPulls : Gen → Nat → List PyVal × Option PyErr × Gen
  | g, 0 => ([], Option.none, g)
  | g, n + 1 =>
    match genNext g with
    | (.yielded v, g') =>
      let r := runPulls g' n
      (v :: r.1, r.2.1, r.2.2)
    | (.stopped, g') =>
      let r := runPulls g' n
      (r.1, r.2.1, r.2.2)
    | (.failed e, g') => ([], some e, g')

/-- The validator instances the repository defines: the two built-in
`GeneratorValidator`s with their `exhaust_generators` flag, and a plain
`Validator` that is not a `GeneratorValidator` (as in the test suite's
`NonGeneratorValidator`, whose `validate` is a no-op). -/
inductive Rule where
  | notEmpty (exhaustGenerators : Bool)
  | unique (exhaustGenerators : Bool)
  | nonGen
deriving DecidableEq, Repr

/-- `isinstance(validator, GeneratorValidator)`. -/
def Rule.isGeneratorValidator : Rule → Bool
  | .notEmpty _ => true
  | .unique _ => true
  | .nonGen => false

/-- The `exhaust_generators` configuration flag. -/
def Rule.exhaustGenerators : Rule → Bool
  | .notEmpty b => b
  | .unique b => b
  | .nonGen => false

/-- `validator.__class__.__name__`. -/
def Rule.name : Rule → String
  | .notEmpty _ => "NotEmpty"
  | .unique _ => "Unique"
  | .nonGen => "NonGeneratorValidator"

/-- `validator.validate(value, func_name, param_name)`. -/
def Rule.validate : Rule → PyVal → String → String → Except PyErr Unit
  | .notEmpty _, v, fn, pn => notEmptyValidate v fn pn
  | .unique _, v, fn, pn => uniqueValidate v fn pn
  | .nonGen, _, _, _ => .ok ()

/-- `validator.wrap_generator(value, func_name, param_name)`: builds the
wrapper generator object; no body code runs (no element is pulled) until the
wrapper is first iterated.  `nonGen` has no `wrap_generator` (abstract); the
engine never calls it on a non-GeneratorValidator, so it is the identity. -/
def Rule.wrapGenerator : Rule → Gen → String → String → Gen
  | .notEmpty _, g, fn, pn => .notEmptyW false fn pn g
  | .unique _, g, fn, pn => .uniqueW [] Option.none fn pn g
  | .nonGen, g, _, _ => g

/-- One metadata object inside an `Annotated[...]` annotation: either a
`Validator` instance or some other object (skipped by the engine). -/
inductive AnnMeta where
  | validator (r : Rule)
  | other
deriving DecidableEq, Repr

/-- A parameter's annotation: missing, a non-`Annotated` hint, or
`Annotated[T, m1, m2, ...]` (the metadata after the type argument). -/
inductive Annot where
  | empty
  | plain
  | annotated (metas : List AnnMeta)
deriving Repr

/-- A bound argument value: a generator object
(`isinstance(value, collections.abc.Generator)`) or a materialized value. -/
inductive ArgVal where
  | mat (v : PyVal)
  | gen (g : Gen)
deriving Repr

/-- The `for validator in validators` loop of `enforce.wrapper` for one
parameter.  `argumentValue` is the local `argument_value`; `stored` is
`bound_args.arguments[param_name]`, the value eventually passed to the
callable.  Note the lazy branch updates only `stored` (as the source updates
only `bound_args.arguments`), while the eager branch updates both. -/
def enforceParam (funcName paramName : String) :
    List AnnMeta → ArgVal → ArgVal → Except PyErr ArgVal
  | [], _, stored => .ok stored
  | .other :: rest, argumentValue, stored =>
    enforceParam funcName paramName rest argumentValue stored
  | .validator r :: rest, argumentValue, stored =>
    match argumentValue with
    | .gen g =>
      if !r.isGeneratorValidator then
        .error (.typeErr (.generatorUnsupported paramName funcName r.name))
      else if r.exhaustGenerators then
        match drain g with
        | .error e => .error e
        | .ok xs =>
          match r.validate (.list xs) funcName paramName with
          | .error e => .error e
          | .ok _ =>
            enforceParam funcName paramName rest (.mat (.list xs)) (.mat (.list xs))
      else
        enforceParam funcName paramName rest argumentValue
          (.gen (r.wrapGenerator g funcName paramName))
    | .mat v =>
      match r.validate v funcName paramName with
      | .error e => .error e
      | .ok _ => enforceParam funcName paramName rest argumentValue stored

/-- Per-parameter dispatch of `enforce.wrapper`: parameters without an
annotation, or with a non-`Annotated` one, are skipped. -/
def processAnnot (funcName paramName : String) (a : Annot) (value : ArgVal) :
    Except PyErr ArgVal :=
  match a with
  | .empty => .ok value
  | .plain => .ok value
  | .annotated metas => enforceParam funcName paramName metas value value

/-- The whole per-call loop over the signature's parameters: returns the
final argument values handed to the underlying callable, or the first error
raised.  The callable is invoked exactly when this returns `.ok`. -/
def enforceCall (funcName : String) :
    List (String × Annot × ArgVal) → Except PyErr (List (String × ArgVal))
  | [] => .ok []
  | (pn, a, v) :: ps =>
    match processAnnot funcName pn a v with
    | .error e => .error e
    | .ok v' =>
      match enforceCall funcName ps with
      | .error e => .error e
      | .ok rest => .ok ((pn, v') :: rest)

/-- The `Validator` instances among a metadata list. -/
def metaRules (ms : List AnnMeta) : List Rule :=
  ms.filterMap fun m => match m with | .validator r => some r | .other => Option.none

/-- The Unique wrapper's internal `(seen, pending)` state after it has
yielded the given list of elements. -/
def uniqueStates : List PyKey → Option PyKey → List PyVal → List PyKey × Option PyKey
  | seen, pending, [] => (seen, pending)
  | seen, pending, v :: vs => uniqueStates (stepSeen seen pending) (tryKey v) vs

/-- The elements are all hashable, pairwise distinct under Python
equality/hash, and their keys avoid the given key set. -/
def freshFrom : List PyKey → List PyVal → Bool
  | _, [] => true
  | s, v :: vs =>
    match tryKey v with
    | Option.none => false
    | some k => if k ∈ s then false else freshFrom (insertKey s k) vs

/-- The value is hashable and equal (by Python equality/hash) to some
element of the list. -/
def memSeen (p : List PyVal) (d : PyVal) : Bool :=
  match tryKey d with
  | Option.none => false
  | some kd => decide (kd ∈ seenKeys p)

/-!  ### Helper lemmas -/

/-- Draining a user generator returns exactly its elements in order. -/
theorem drain_source : ∀ xs : List PyVal, drain (.source xs) = .ok xs := by
  intro xs
  induction xs with
  | nil => rw [drain]; rfl
  | cons v rest ih =>
    rw [drain]
    simp [genNext, ih]

theorem metaRules_cons_other (rest : List AnnMeta) :
    metaRules (.other :: rest) = metaRules rest := rfl

theorem metaRules_cons_validator (r : Rule) (rest : List AnnMeta) :
    metaRules (.validator r :: rest) = r :: metaRules rest := rfl

/-- A parameter whose metadata holds no `Validator` instance is left
untouched by the per-parameter loop. -/
theorem enforceParam_all_other (fn pn : String) (av stored : ArgVal) :
    ∀ metas : List AnnMeta, (∀ m ∈ metas, m = .other) →
      enforceParam fn pn metas av stored = .ok stored := by
  intro metas
  induction metas with
  | nil => intro _; rfl
  | cons m rest ih =>
    intro h
    have hm : m = AnnMeta.other := h m (by simp)
    subst hm
    simpa [enforceParam] using ih fun m hm => h m (by simp [hm])

/-- If a materialized value fails some attached rule's `validate`, the
per-parameter loop raises (the value is never transformed on this path). -/
theorem enforceParam_mat_fails (fn pn : String) (v : PyVal) :
    ∀ (ms : List AnnMeta) (r : Rule) (e : PyErr) (stored : ArgVal),
      r ∈ metaRules ms → r.validate v fn pn = .error e →
      ∃ e', enforceParam fn pn ms (.mat v) stored = .error e' := by
  intro ms
  induction ms with
  | nil => intro r e stored hr _; simp [metaRules] at hr
  | cons m rest ih =>
    intro r e stored hr hv
    cases m with
    | other =>
      simp [metaRules] at hr
      simpa [enforceParam] using ih r e stored (by simpa [metaRules] using hr) hv
    | validator r' =>
      simp only [enforceParam]
      cases hv' : r'.validate v fn pn with
      | error e'' => exact ⟨e'', rfl⟩
      | ok u =>
        have hr2 : r = r' ∨ r ∈ metaRules rest := by
          simpa [metaRules] using hr
        rcases hr2 with h | h
        · subst h; rw [hv] at hv'; cases hv'
        · simpa using ih r e stored h hv

/-- If every attached rule on a generator argument is a lazy
`GeneratorValidator`, the per-parameter loop succeeds (each rule only builds
a wrapper; nothing is validated or pulled at call time). -/
theorem enforceParam_lazy_ok (fn pn : String) (g : Gen) :
    ∀ (ms : List AnnMeta) (stored : ArgVal),
      (∀ r ∈ metaRules ms,
        r.isGeneratorValidator = true ∧ r.exhaustGenerators = false) →
      ∃ w, enforceParam fn pn ms (.gen g) stored = .ok w := by
  intro ms
  induction ms with
  | nil => intro stored _; exact ⟨stored, rfl⟩
  | cons m rest ih =>
    intro stored h
    cases m with
    | other =>
      simpa [enforceParam] using
        ih stored fun r hr => h r (by rw [metaRules_cons_other]; exact hr)
    | validator r' =>
      obtain ⟨hg, he⟩ := h r'
        (by rw [metaRules_cons_validator]; exact List.mem_cons_self _ _)
      have := ih (.gen (r'.wrapGenerator g fn pn)) fun r hr =>
        h r (by rw [metaRules_cons_validator]; exact List.mem_cons_of_mem _ hr)
      simpa [enforceParam, hg, he] using this

/-- Building a lazy wrapper never pulls from the wrapped stream: the
underlying element count is unchanged. -/
theorem wrapGenerator_remaining (r : Rule) (g : Gen) (fn pn : String) :
    (r.wrapGenerator g fn pn).remaining = g.remaining := by
  cases r <;> rfl

/-- If a non-GeneratorValidator rule follows only lazy stream-capable rules
on a generator argument, the loop reaches it with the value still a
generator and raises the usage TypeError naming the rule and parameter. -/
theorem enforceParam_lazy_then_bad (fn pn : String) (g : Gen) (r : Rule)
    (ms : List AnnMeta) (hbad : r.isGeneratorValidator = false) :
    ∀ (rs : List Rule) (stored : ArgVal),
      (∀ r' ∈ rs,
        r'.isGeneratorValidator = true ∧ r'.exhaustGenerators = false) →
      enforceParam fn pn (rs.map .validator ++ .validator r :: ms) (.gen g)
          stored
        = .error (.typeErr (.generatorUnsupported pn fn r.name)) := by
  intro rs
  induction rs with
  | nil =>
    intro stored _
    simp [enforceParam, hbad]
  | cons r' rs' ih =>
    intro stored h
    obtain ⟨hg, he⟩ := h r' (by simp)
    have := ih (.gen (r'.wrapGenerator g fn pn)) fun r'' hr =>
      h r'' (by simp [hr])
    simpa [enforceParam, hg, he] using this

/-- When every element is hashable, `set(...)` construction succeeds and
computes the left fold of key insertions. -/
theorem pySetKeys_ok : ∀ (vs : List PyVal) (acc : List PyKey),
    allHashable vs = true →
    pySetKeys acc vs = .ok (vs.foldl
      (fun s v => match tryKey v with
        | some k => insertKey s k
        | Option.none => s) acc) := by
  intro vs
  induction vs with
  | nil => intro acc _; rfl
  | cons v vs' ih =>
    intro acc h
    simp only [allHashable, List.all_cons, Bool.and_eq_true] at h
    obtain ⟨hv, hvs⟩ := h
    cases htk : tryKey v with
    | none => rw [htk] at hv; simp at hv
    | some k =>
      simpa [pySetKeys, htk] using ih (insertKey acc k) hvs

/-- When some element is unhashable, `set(...)` construction raises the
builtin unhashable-type TypeError. -/
theorem pySetKeys_unhashable : ∀ (vs : List PyVal) (acc : List PyKey),
    allHashable vs = false →
    ∃ tn, pySetKeys acc vs = .error (.typeErr (.unhashable tn)) := by
  intro vs
  induction vs with
  | nil => intro acc h; simp [allHashable] at h
  | cons v vs' ih =>
    intro acc h
    cases htk : tryKey v with
    | none => exact ⟨typeName v, by simp [pySetKeys, htk]⟩
    | some k =>
      have h' : allHashable vs' = false := by
        simpa [allHashable, htk] using h
      simpa [pySetKeys, htk] using ih (insertKey acc k) h'

/-- Key insertion grows the set by at most one element. -/
theorem insertKey_length_le (s : List PyKey) (k : PyKey) :
    (insertKey s k).length ≤ s.length + 1 := by
  unfold insertKey
  split
  · omega
  · simp

/-- A set built from a list has at most as many elements as the list. -/
theorem seenKeys_foldl_length : ∀ (vs : List PyVal) (acc : List PyKey),
    (vs.foldl (fun s v => match tryKey v with
      | some k => insertKey s k
      | Option.none => s) acc).length ≤ acc.length + vs.length := by
  intro vs
  induction vs with
  | nil => intro acc; simp
  | cons v vs' ih =>
    intro acc
    have hstep : (match tryKey v with
        | some k => insertKey acc k
        | Option.none => acc).length ≤ acc.length + 1 := by
      cases tryKey v with
      | none => simp
      | some k => exact insertKey_length_le acc k
    calc (List.foldl _ (match tryKey v with
          | some k => insertKey acc k
          | Option.none => acc) vs').length
        ≤ (match tryKey v with
          | some k => insertKey acc k
          | Option.none => acc).length + vs'.length := ih _
      _ ≤ acc.length + 1 + vs'.length := by omega
      _ = acc.length + (v :: vs').length := by simp; omega

/-- Splitting a pull sequence: pulling `a + b` times is pulling `a` times
and, unless an error already stopped consumption, `b` more. -/
theorem runPulls_add : ∀ (a b : Nat) (g : Gen),
    runPulls g (a + b)
      = (match runPulls g a with
         | (vs, some e, g') => (vs, some e, g')
         | (vs, Option.none, g') =>
           (vs ++ (runPulls g' b).1, (runPulls g' b).2.1,
             (runPulls g' b).2.2)) := by
  intro a
  induction a with
  | zero =>
    intro b g
    simp [runPulls]
  | succ a ih =>
    intro b g
    have hab : a + 1 + b = (a + b) + 1 := by omega
    rw [hab]
    cases hg : genNext g with
    | mk res g1 =>
      cases res with
      | yielded v =>
        simp only [runPulls, hg]
        rw [ih b g1]
        cases hr : runPulls g1 a with
        | mk vs rest =>
          cases rest with
          | mk oe g2 =>
            cases oe with
            | none => simp
            | some e => simp
      | stopped =>
        simp only [runPulls, hg]
        rw [ih b g1]
      | failed e =>
        simp [runPulls, hg]

/-- The effective seen set (with the pending insertion applied) after the
Unique wrapper has emitted a list of elements is the key set of those
elements folded onto the starting state. -/
theorem stepSeen_uniqueStates :
    ∀ (p : List PyVal) (seen : List PyKey) (pending : Option PyKey),
      stepSeen (uniqueStates seen pending p).1 (uniqueStates seen pending p).2
        = p.foldl (fun s v => match tryKey v with
            | some k => insertKey s k
            | Option.none => s) (stepSeen seen pending) := by
  intro p
  induction p with
  | nil => intro seen pending; rfl
  | cons v vs ih =>
    intro seen pending
    cases htk : tryKey v with
    | none =>
      simpa [uniqueStates, htk, stepSeen] using
        ih (stepSeen seen pending) Option.none
    | some k =>
      simpa [uniqueStates, htk, stepSeen] using
        ih (stepSeen seen pending) (some k)

/-- Pulling `j ≤ |p|` times from the Unique wrapper over a stream starting
with a fresh (hashable, duplicate-free) prefix `p` yields exactly the first
`j` elements, raises nothing, and consumes exactly `j` elements of the
underlying stream. -/
theorem runPulls_uniqueW_fresh (fn pn : String) :
    ∀ (j : Nat) (p : List PyVal) (seen : List PyKey) (pending : Option PyKey)
      (rest : List PyVal),
      freshFrom (stepSeen seen pending) p = true → j ≤ p.length →
      runPulls (.uniqueW seen pending fn pn (.source (p ++ rest))) j
        = (p.take j, Option.none,
           .uniqueW (uniqueStates seen pending (p.take j)).1
             (uniqueStates seen pending (p.take j)).2 fn pn
             (.source (p.drop j ++ rest))) := by
  intro j
  induction j with
  | zero =>
    intro p seen pending rest _ _
    simp [runPulls, uniqueStates]
  | succ j ih =>
    intro p seen pending rest hfresh hj
    cases p with
    | nil => simp at hj
    | cons v p' =>
      cases htk : tryKey v with
      | none => simp [freshFrom, htk] at hfresh
      | some k =>
        simp only [freshFrom, htk] at hfresh
        by_cases hmem : k ∈ stepSeen seen pending
        · simp [hmem] at hfresh
        · rw [if_neg hmem] at hfresh
          have hj' : j ≤ p'.length := by simpa using hj
          have hstep :
              genNext (.uniqueW seen pending fn pn
                  (.source (v :: (p' ++ rest))))
                = (.yielded v, .uniqueW (stepSeen seen pending) (some k) fn pn
                    (.source (p' ++ rest))) := by
            simp [genNext, htk, hmem]
          have ihh := ih p' (stepSeen seen pending) (some k) rest
            (by simpa [stepSeen] using hfresh) hj'
          simp only [List.cons_append, runPulls, hstep, ihh,
            List.take_succ_cons, List.drop_succ_cons, uniqueStates, htk]

/-- After emitting a fresh prefix `p`, the Unique wrapper raises the
duplicate ValidationError at the very pull that would produce a previously
seen element, closes, and later pulls add nothing. -/
theorem runPulls_uniqueW_dup (fn pn : String) (p : List PyVal) (d : PyVal)
    (ys : List PyVal) (n : Nat)
    (hfresh : freshFrom [] p = true) (hdup : memSeen p d = true) :
    runPulls (.uniqueW [] Option.none fn pn (.source (p ++ d :: ys)))
        (p.length + 1 + n)
      = (p, some (.valErr (.uniqueDuplicate pn fn)), .closed) := by
  have hml := runPulls_uniqueW_fresh fn pn p.length p [] Option.none (d :: ys)
    (by simpa [stepSeen] using hfresh) (le_refl _)
  simp only [List.take_length, List.drop_length, List.nil_append] at hml
  cases htd : tryKey d with
  | none => simp [memSeen, htd] at hdup
  | some kd =>
    have hkd : kd ∈ seenKeys p := by
      have := hdup
      simp only [memSeen, htd] at this
      exact of_decide_eq_true this
    have hseen : stepSeen (uniqueStates [] Option.none p).1
        (uniqueStates [] Option.none p).2 = seenKeys p := by
      simpa [stepSeen, seenKeys] using stepSeen_uniqueStates p [] Option.none
    have hfail : genNext (.uniqueW (uniqueStates [] Option.none p).1
        (uniqueStates [] Option.none p).2 fn pn (.source (d :: ys)))
        = (.failed (.valErr (.uniqueDuplicate pn fn)), .closed) := by
      simp [genNext, htd, hseen, hkd]
    have harr : p.length + 1 + n = p.length + (n + 1) := by omega
    rw [harr, runPulls_add, hml]
    simp [runPulls, hfail]

/-!  ### Claim theorems -/

/-- C1: the claim says that with two lazy stream-capable rules attached, the
stream is threaded through each rule's wrapper in declaration order, the
final argument being the last wrapper wrapping the previous wrapper.  The
code instead never updates the local `argument_value` in the lazy branch, so
each wrapper wraps the ORIGINAL stream and only the last one is kept.  At
the failing input (rules `[NotEmpty(), Unique()]`, empty generator): the
callable receives Unique's wrapper around the original stream (first
conjunct); consuming it raises nothing (second conjunct); the chained
wrapper the claim describes would raise NotEmpty's ValidationError on the
first pull (third conjunct). -/
theorem c1_lazy_rules_not_chained :
    enforceParam "f" "data"
        [.validator (.notEmpty false), .validator (.unique false)]
        (.gen (.source [])) (.gen (.source []))
      = .ok (.gen (.uniqueW [] Option.none "f" "data" (.source [])))
    ∧ runPulls (.uniqueW [] Option.none "f" "data" (.source [])) 1
      = ([], Option.none, .closed)
    ∧ runPulls (.uniqueW [] Option.none "f" "data"
          (.notEmptyW false "f" "data" (.source []))) 1
      = ([], some (.valErr (.notEmptyEmpty "data" "f")), .closed) :=
  ⟨rfl, rfl, rfl⟩

/-- C2 counterexample: the claim says lazy `NotEmpty.wrap_generator` pulls
one element before returning, so an empty stream fails at the time the
wrapped callable is invoked.  In fact `wrapper` is a generator function, so
no body code runs at call time: the call succeeds and hands the callable a
wrapper around the untouched empty stream (first conjunct), and the
emptiness ValidationError is raised only at the consumer's first pull
(second conjunct). -/
theorem c2_call_time_failure_refuted :
    enforceParam "f" "items" [.validator (.notEmpty false)]
        (.gen (.source [])) (.gen (.source []))
      = .ok (.gen (.notEmptyW false "f" "items" (.source [])))
    ∧ runPulls (.notEmptyW false "f" "items" (.source [])) 1
      = ([], some (.valErr (.notEmptyEmpty "items" "f")), .closed) :=
  ⟨rfl, rfl⟩

/-- C2 amended: lazy `NotEmpty.wrap_generator` returns immediately without
pulling anything (the wrapper wraps the input with its element count
unchanged); the single-element lookahead happens at the FIRST pull on the
wrapper: on an exhausted input that first pull raises the emptiness
ValidationError (consumption time, not call time), and on a non-empty input
it pulls exactly one element and re-emits it. -/
theorem c2_not_empty_first_access (fn pn : String) (g : Gen) (v : PyVal)
    (xs : List PyVal) :
    enforceParam fn pn [.validator (.notEmpty false)] (.gen g) (.gen g)
      = .ok (.gen (.notEmptyW false fn pn g))
    ∧ (Gen.notEmptyW false fn pn g).remaining = g.remaining
    ∧ genNext (.notEmptyW false fn pn (.source []))
      = (.failed (.valErr (.notEmptyEmpty pn fn)), .closed)
    ∧ genNext (.notEmptyW false fn pn (.source (v :: xs)))
      = (.yielded v, .notEmptyW true fn pn (.source xs)) :=
  ⟨rfl, rfl, rfl, rfl⟩

/-- C9 counterexample: the claim asserts that a `range` value (a
lazily-produced non-generator) with a NotEmpty rule raises a usage
TypeError.  A `range` supports `len()`, so `NotEmpty.validate` accepts a
non-empty range and the call proceeds normally — no TypeError. -/
theorem c9_range_no_type_error :
    enforceParam "f" "items" [.validator (.notEmpty false)]
        (.mat (.rangeV 3)) (.mat (.rangeV 3))
      = .ok (.mat (.rangeV 3)) := rfl

/-- C9 amended: the engine classifies a value as a stream exactly when it is
a generator instance; every non-generator value takes the materialized-value
path, where NotEmpty's `validate` runs: a non-Sized lazy value such as a
map/filter object raises the usage TypeError, but a `range` is Sized, so a
non-empty range passes and an empty range raises a ValidationError (not a
TypeError).  In general the materialized path applies `validate` and passes
the value through unwrapped. -/
theorem c9_generator_classification (fn pn : String) (n : Nat) (v : PyVal) :
    enforceParam fn pn [.validator (.notEmpty false)] (.mat .iterObj)
        (.mat .iterObj)
      = .error (.typeErr (.notEmptySized fn "map" pn))
    ∧ enforceParam fn pn [.validator (.notEmpty false)]
        (.mat (.rangeV (n + 1))) (.mat (.rangeV (n + 1)))
      = .ok (.mat (.rangeV (n + 1)))
    ∧ enforceParam fn pn [.validator (.notEmpty false)] (.mat (.rangeV 0))
        (.mat (.rangeV 0))
      = .error (.valErr (.notEmptyEmpty pn fn))
    ∧ enforceParam fn pn [.validator (.notEmpty false)] (.mat v) (.mat v)
      = (match notEmptyValidate v fn pn with
         | .ok _ => .ok (.mat v)
         | .error e => .error e) := by
  refine ⟨rfl, ?_, rfl, ?_⟩
  · simp [enforceParam, Rule.validate, notEmptyValidate, isSized, pyLen, elems]
  · cases hv : notEmptyValidate v fn pn with
    | ok u => simp [enforceParam, Rule.validate, hv]
    | error e => simp [enforceParam, Rule.validate, hv]

/-- C3 counterexample: the claim says that a rule list containing a
non-stream-capable rule aborts with a usage error before any element is
pulled, even when an earlier stream-capable rule is configured eager.  In
fact the capability check runs per rule inside the loop: an eager rule first
drains the whole stream and replaces the value by a list, after which the
non-stream-capable rule simply validates the list — the call succeeds, no
usage error is raised, and every element was pulled. -/
theorem c3_eager_then_plain_no_abort :
    enforceParam "f" "data" [.validator (.notEmpty true), .validator .nonGen]
        (.gen (.source [.scalar (.int 1)])) (.gen (.source [.scalar (.int 1)]))
      = .ok (.mat (.list [.scalar (.int 1)])) := by
  simp [enforceParam, drain_source, Rule.validate, Rule.isGeneratorValidator,
    Rule.exhaustGenerators, notEmptyValidate, isSized, pyLen, elems]

/-- C3 amended: if, when a non-stream-capable rule is reached in declaration
order, the argument is still a generator — in particular whenever all
preceding rules are lazy stream-capable rules — the call aborts with a
TypeError identifying the offending rule and the parameter, and no element
has been pulled (lazy wrapping leaves the underlying element count
unchanged, and the lazy path never consumes).  An earlier eager rule
instead materializes the stream first, and then no usage error occurs. -/
theorem c3_usage_error_when_reached (fn pn : String) (rs : List Rule)
    (r r2 : Rule) (ms : List AnnMeta) (g : Gen) (stored : ArgVal)
    (hlazy : ∀ r' ∈ rs,
      r'.isGeneratorValidator = true ∧ r'.exhaustGenerators = false)
    (hbad : r.isGeneratorValidator = false) :
    enforceParam fn pn (rs.map .validator ++ .validator r :: ms) (.gen g)
        stored
      = .error (.typeErr (.generatorUnsupported pn fn r.name))
    ∧ (r2.wrapGenerator g fn pn).remaining = g.remaining :=
  ⟨enforceParam_lazy_then_bad fn pn g r ms hbad rs stored hlazy,
    wrapGenerator_remaining r2 g fn pn⟩

/-- C3 witness: lazy NotEmpty followed by a plain validator on a
one-element generator. -/
theorem c3_witness :
    ((∀ r' ∈ [Rule.notEmpty false],
        r'.isGeneratorValidator = true ∧ r'.exhaustGenerators = false)
      ∧ Rule.nonGen.isGeneratorValidator = false)
    ∧ (enforceParam "f" "data"
          ([Rule.notEmpty false].map .validator ++ [.validator .nonGen])
          (.gen (.source [.scalar (.int 7)])) (.gen (.source [.scalar (.int 7)]))
        = .error (.typeErr (.generatorUnsupported "data" "f" Rule.nonGen.name))
      ∧ ((Rule.unique false).wrapGenerator (.source [.scalar (.int 7)])
            "f" "data").remaining
          = (Gen.source [.scalar (.int 7)]).remaining) :=
  ⟨⟨by decide, rfl⟩,
    c3_usage_error_when_reached "f" "data" [.notEmpty false] .nonGen
      (.unique false) [] (.source [.scalar (.int 7)])
      (.gen (.source [.scalar (.int 7)])) (by decide) rfl⟩

/-- C4: for a stream whose first `|p|` elements `p` are duplicate-free (and
hashable) and whose next element `d` repeats an earlier one — first
duplicate at position `|p| + 1` — the lazy Unique wrapper re-emits the first
`j ≤ |p|` elements in order without failing, consuming exactly `j` elements
of the underlying stream (first conjunct: the unconsumed source is
`p.drop j ++ d :: ys`); the pull producing position `|p| + 1` raises the
duplicate ValidationError and closes the wrapper, with later pulls adding
nothing (second conjunct); and the wrapper's entire observable trace —
outputs and error — is independent of the elements beyond the duplicate, so
no element past position `|p| + 1` is ever pulled (last conjuncts). -/
theorem c4_unique_lazy_duplicate (fn pn : String) (p ys ys2 : List PyVal)
    (d : PyVal) (j n m : Nat)
    (hfresh : freshFrom [] p = true)
    (hdup : memSeen p d = true)
    (hj : j ≤ p.length) :
    runPulls (.uniqueW [] Option.none fn pn (.source (p ++ d :: ys))) j
      = (p.take j, Option.none,
         .uniqueW (uniqueStates [] Option.none (p.take j)).1
           (uniqueStates [] Option.none (p.take j)).2 fn pn
           (.source (p.drop j ++ d :: ys)))
    ∧ runPulls (.uniqueW [] Option.none fn pn (.source (p ++ d :: ys)))
        (p.length + 1 + n)
      = (p, some (.valErr (.uniqueDuplicate pn fn)), .closed)
    ∧ (runPulls (.uniqueW [] Option.none fn pn (.source (p ++ d :: ys2))) m).1
        = (runPulls (.uniqueW [] Option.none fn pn (.source (p ++ d :: ys))) m).1
    ∧ (runPulls (.uniqueW [] Option.none fn pn
          (.source (p ++ d :: ys2))) m).2.1
        = (runPulls (.uniqueW [] Option.none fn pn
            (.source (p ++ d :: ys))) m).2.1 := by
  have hfresh' : ∀ rest : List PyVal, ∀ i ≤ p.length,
      runPulls (.uniqueW [] Option.none fn pn (.source (p ++ rest))) i
        = (p.take i, Option.none,
           .uniqueW (uniqueStates [] Option.none (p.take i)).1
             (uniqueStates [] Option.none (p.take i)).2 fn pn
             (.source (p.drop i ++ rest))) := fun rest i hi =>
    runPulls_uniqueW_fresh fn pn i p [] Option.none rest
      (by simpa [stepSeen] using hfresh) hi
  refine ⟨hfresh' (d :: ys) j hj,
    runPulls_uniqueW_dup fn pn p d ys n hfresh hdup, ?_, ?_⟩
  · by_cases hm : m ≤ p.length
    · rw [hfresh' (d :: ys) m hm, hfresh' (d :: ys2) m hm]
    · have hmm : m = p.length + 1 + (m - p.length - 1) := by omega
      rw [hmm, runPulls_uniqueW_dup fn pn p d ys _ hfresh hdup,
        runPulls_uniqueW_dup fn pn p d ys2 _ hfresh hdup]
  · by_cases hm : m ≤ p.length
    · rw [hfresh' (d :: ys) m hm, hfresh' (d :: ys2) m hm]
    · have hmm : m = p.length + 1 + (m - p.length - 1) := by omega
      rw [hmm, runPulls_uniqueW_dup fn pn p d ys _ hfresh hdup,
        runPulls_uniqueW_dup fn pn p d ys2 _ hfresh hdup]

/-- C4 witness: stream `1, 2, 1, 9, ...`: first duplicate at position 3. -/
theorem c4_witness :
    (freshFrom [] [PyVal.scalar (.int 1), PyVal.scalar (.int 2)] = true
      ∧ memSeen [PyVal.scalar (.int 1), PyVal.scalar (.int 2)]
          (.scalar (.int 1)) = true
      ∧ 1 ≤ [PyVal.scalar (.int 1), PyVal.scalar (.int 2)].length)
    ∧ (runPulls (.uniqueW [] Option.none "f" "items"
          (.source ([PyVal.scalar (.int 1), PyVal.scalar (.int 2)]
            ++ PyVal.scalar (.int 1) :: [PyVal.scalar (.int 9)]))) 1
        = ([PyVal.scalar (.int 1), PyVal.scalar (.int 2)].take 1, Option.none,
           .uniqueW
             (uniqueStates [] Option.none
               ([PyVal.scalar (.int 1), PyVal.scalar (.int 2)].take 1)).1
             (uniqueStates [] Option.none
               ([PyVal.scalar (.int 1), PyVal.scalar (.int 2)].take 1)).2
             "f" "items"
             (.source ([PyVal.scalar (.int 1), PyVal.scalar (.int 2)].drop 1
               ++ PyVal.scalar (.int 1) :: [PyVal.scalar (.int 9)])))
      ∧ runPulls (.uniqueW [] Option.none "f" "items"
            (.source ([PyVal.scalar (.int 1), PyVal.scalar (.int 2)]
              ++ PyVal.scalar (.int 1) :: [PyVal.scalar (.int 9)])))
          ([PyVal.scalar (.int 1), PyVal.scalar (.int 2)].length + 1 + 0)
        = ([PyVal.scalar (.int 1), PyVal.scalar (.int 2)],
           some (.valErr (.uniqueDuplicate "items" "f")), .closed)
      ∧ (runPulls (.uniqueW [] Option.none "f" "items"
            (.source ([PyVal.scalar (.int 1), PyVal.scalar (.int 2)]
              ++ PyVal.scalar (.int 1) :: []))) 4).1
          = (runPulls (.uniqueW [] Option.none "f" "items"
              (.source ([PyVal.scalar (.int 1), PyVal.scalar (.int 2)]
                ++ PyVal.scalar (.int 1) :: [PyVal.scalar (.int 9)]))) 4).1
      ∧ (runPulls (.uniqueW [] Option.none "f" "items"
            (.source ([PyVal.scalar (.int 1), PyVal.scalar (.int 2)]
              ++ PyVal.scalar (.int 1) :: []))) 4).2.1
          = (runPulls (.uniqueW [] Option.none "f" "items"
              (.source ([PyVal.scalar (.int 1), PyVal.scalar (.int 2)]
                ++ PyVal.scalar (.int 1) :: [PyVal.scalar (.int 9)]))) 4).2.1) :=
  ⟨⟨by decide, by decide, by decide⟩,
    c4_unique_lazy_duplicate "f" "items"
      [PyVal.scalar (.int 1), PyVal.scalar (.int 2)]
      [PyVal.scalar (.int 9)] [] (.scalar (.int 1)) 1 0 4
      (by decide) (by decide) (by decide)⟩

/-- C5: if a materialized argument value fails an attached rule's
`validate`, the enforcement loop raises before the underlying callable runs
(the callable is invoked exactly when `enforceCall` returns `.ok`); if a
generator argument carries only lazy stream-capable rules, the call always
succeeds — the callable receives a wrapper — and any validation failure can
only surface later, when that wrapper is consumed. -/
theorem c5_callable_invocation (fn pn : String) (v : PyVal) (g : Gen)
    (ms1 ms2 : List AnnMeta) (r : Rule) (e : PyErr)
    (hr : r ∈ metaRules ms1) (hv : r.validate v fn pn = .error e)
    (hlazy : ∀ r' ∈ metaRules ms2,
      r'.isGeneratorValidator = true ∧ r'.exhaustGenerators = false) :
    (∃ e', enforceCall fn [(pn, .annotated ms1, .mat v)] = .error e')
    ∧ (∃ w, enforceCall fn [(pn, .annotated ms2, .gen g)] = .ok [(pn, w)]) := by
  constructor
  · obtain ⟨e', he'⟩ := enforceParam_mat_fails fn pn v ms1 r e (.mat v) hr hv
    exact ⟨e', by simp [enforceCall, processAnnot, he']⟩
  · obtain ⟨w, hw⟩ := enforceParam_lazy_ok fn pn g ms2 (.gen g) hlazy
    exact ⟨w, by simp [enforceCall, processAnnot, hw]⟩

/-- C5 witness: empty list under NotEmpty (callable never invoked); empty
generator under lazy Unique (callable invoked with a wrapper). -/
theorem c5_witness :
    (Rule.notEmpty false ∈ metaRules [.validator (.notEmpty false)]
      ∧ (Rule.notEmpty false).validate (.list []) "f" "items"
          = .error (.valErr (.notEmptyEmpty "items" "f"))
      ∧ (∀ r' ∈ metaRules [AnnMeta.validator (.unique false)],
          r'.isGeneratorValidator = true ∧ r'.exhaustGenerators = false))
    ∧ ((∃ e', enforceCall "f"
          [("items", .annotated [.validator (.notEmpty false)], .mat (.list []))]
          = .error e')
      ∧ (∃ w, enforceCall "f"
          [("items", .annotated [.validator (.unique false)],
            .gen (.source []))]
          = .ok [("items", w)])) :=
  ⟨⟨by decide, rfl, by decide⟩,
    c5_callable_invocation "f" "items" (.list []) (.source [])
      [.validator (.notEmpty false)] [.validator (.unique false)]
      (.notEmpty false) (.valErr (.notEmptyEmpty "items" "f"))
      (by decide) rfl (by decide)⟩

/-- C6: `Unique.validate` raises a usage TypeError for every value that is
not an iterable container with hashable elements (the non-Collection
TypeError, or the builtin unhashable-type TypeError from building the set);
it succeeds trivially for every set container; and for every other
collection with hashable elements it raises a ValidationError exactly when
the number of distinct elements — by Python equality/hash, so an integer
and an equal float collapse to one element — is smaller than the element
count (final conjunct: `[1, 1.0]` fails as a duplicate). -/
theorem c6_unique_validate (fn pn : String) (v1 v2 v3 : PyVal)
    (xs : List PyScalar)
    (h1 : isCollection v1 = false)
    (h2a : isCollection v2 = true) (h2b : isSetVal v2 = false)
    (h2c : allHashable (elems v2) = false)
    (h3a : isCollection v3 = true) (h3b : isSetVal v3 = false)
    (h3c : allHashable (elems v3) = true) :
    uniqueValidate v1 fn pn
      = .error (.typeErr (.uniqueNotCollection fn (typeName v1) pn))
    ∧ (∃ tn, uniqueValidate v2 fn pn = .error (.typeErr (.unhashable tn)))
    ∧ uniqueValidate (.setV xs) fn pn = .ok ()
    ∧ (uniqueValidate v3 fn pn = .error (.valErr (.uniqueDuplicate pn fn))
        ↔ (seenKeys (elems v3)).length < pyLen v3)
    ∧ uniqueValidate (.list [.scalar (.int 1), .scalar (.float 1)]) fn pn
      = .error (.valErr (.uniqueDuplicate pn fn)) := by
  refine ⟨by simp [uniqueValidate, h1], ?_, ?_, ?_, rfl⟩
  · obtain ⟨tn, htn⟩ := pySetKeys_unhashable (elems v2) [] h2c
    exact ⟨tn, by simp [uniqueValidate, h2a, h2b, htn]⟩
  · simp [uniqueValidate, isCollection, isSetVal]
  · have hk := pySetKeys_ok (elems v3) [] h3c
    have hle : (seenKeys (elems v3)).length ≤ pyLen v3 := by
      simpa [seenKeys, pyLen] using seenKeys_foldl_length (elems v3) []
    have hsk : (elems v3).foldl
        (fun s v => match tryKey v with
          | some k => insertKey s k
          | Option.none => s) [] = seenKeys (elems v3) := rfl
    rw [hsk] at hk
    simp only [uniqueValidate, h3a, h3b, Bool.not_true, Bool.false_eq_true,
      if_false, hk]
    constructor
    · intro hcond
      by_cases hne : pyLen v3 ≠ (seenKeys (elems v3)).length
      · omega
      · simp [hne] at hcond
    · intro hlt
      have hne : pyLen v3 ≠ (seenKeys (elems v3)).length := by omega
      simp [hne]

/-- C6 witness: an int (not a Collection), a list containing a list
(unhashable element), a list with a duplicate, and a two-element set. -/
theorem c6_witness :
    (isCollection (.scalar (.int 123)) = false
      ∧ isCollection (.list [.list []]) = true
      ∧ isSetVal (.list [.list []]) = false
      ∧ allHashable (elems (.list [.list []])) = false
      ∧ isCollection (.list [.scalar (.int 1), .scalar (.int 1)]) = true
      ∧ isSetVal (.list [.scalar (.int 1), .scalar (.int 1)]) = false
      ∧ allHashable (elems (.list [.scalar (.int 1), .scalar (.int 1)])) = true)
    ∧ (uniqueValidate (.scalar (.int 123)) "f" "data"
        = .error (.typeErr (.uniqueNotCollection "f" "int" "data"))
      ∧ (∃ tn, uniqueValidate (.list [.list []]) "f" "data"
          = .error (.typeErr (.unhashable tn)))
      ∧ uniqueValidate (.setV [.int 1, .int 2]) "f" "data" = .ok ()
      ∧ (uniqueValidate (.list [.scalar (.int 1), .scalar (.int 1)]) "f" "data"
          = .error (.valErr (.uniqueDuplicate "data" "f"))
        ↔ (seenKeys (elems (.list [.scalar (.int 1), .scalar (.int 1)]))).length
            < pyLen (.list [.scalar (.int 1), .scalar (.int 1)]))
      ∧ uniqueValidate (.list [.scalar (.int 1), .scalar (.float 1)]) "f" "data"
        = .error (.valErr (.uniqueDuplicate "data" "f"))) :=
  ⟨⟨rfl, rfl, rfl, rfl, rfl, rfl, rfl⟩,
    c6_unique_validate "f" "data" (.scalar (.int 123)) (.list [.list []])
      (.list [.scalar (.int 1), .scalar (.int 1)]) [.int 1, .int 2]
      rfl rfl rfl rfl rfl rfl rfl⟩

/-- C7: an eager (`exhaust_generators=True`) stream-capable rule on a finite
generator drains it at call time into a list holding exactly the stream's
elements in their original order; the rule's `validate` then runs on that
list — on success the callable receives the materialized list, on violation
(for example an empty stream under eager NotEmpty) the validation failure is
raised at call time. -/
theorem c7_eager_materializes (fn pn : String) (r : Rule) (xs : List PyVal)
    (hg : r.isGeneratorValidator = true) (he : r.exhaustGenerators = true) :
    enforceParam fn pn [.validator r] (.gen (.source xs)) (.gen (.source xs))
      = (match r.validate (.list xs) fn pn with
         | .ok _ => .ok (.mat (.list xs))
         | .error e => .error e)
    ∧ enforceParam fn pn [.validator (.notEmpty true)] (.gen (.source []))
        (.gen (.source []))
      = .error (.valErr (.notEmptyEmpty pn fn)) := by
  constructor
  · simp only [enforceParam, hg, he, Bool.not_true, Bool.false_eq_true,
      if_false, if_true, drain_source]
    cases hv : r.validate (.list xs) fn pn with
    | ok u => simp [enforceParam]
    | error e => rfl
  · simp [enforceParam, drain_source, Rule.validate, Rule.isGeneratorValidator,
      Rule.exhaustGenerators, notEmptyValidate, isSized, pyLen, elems]

/-- C7 witness: eager NotEmpty on a one-element generator. -/
theorem c7_witness :
    ((Rule.notEmpty true).isGeneratorValidator = true
      ∧ (Rule.notEmpty true).exhaustGenerators = true)
    ∧ (enforceParam "f" "items" [.validator (.notEmpty true)]
        (.gen (.source [.scalar (.int 1)])) (.gen (.source [.scalar (.int 1)]))
        = (match (Rule.notEmpty true).validate (.list [.scalar (.int 1)])
              "f" "items" with
           | .ok _ => .ok (.mat (.list [.scalar (.int 1)]))
           | .error e => .error e)
      ∧ enforceParam "f" "items" [.validator (.notEmpty true)]
          (.gen (.source [])) (.gen (.source []))
        = .error (.valErr (.notEmptyEmpty "items" "f"))) :=
  ⟨⟨rfl, rfl⟩,
    c7_eager_materializes "f" "items" (.notEmpty true) [.scalar (.int 1)]
      rfl rfl⟩

/-- C8: with an ordered rule list `[R1, R2]` on a materialized value that
fails both rules, only R1's failure is observed: the loop raises R1's error
and R2's `validate` never runs (the result is R1's error `e1`, not `e2`). -/
theorem c8_first_failure_short_circuit (fn pn : String) (r1 r2 : Rule)
    (v : PyVal) (e1 e2 : PyErr)
    (h1 : r1.validate v fn pn = .error e1)
    (_h2 : r2.validate v fn pn = .error e2) :
    enforceParam fn pn [.validator r1, .validator r2] (.mat v) (.mat v)
      = .error e1 := by
  simp [enforceParam, h1]

/-- C8 witness: `[1, 1]` under two Unique rules fails with the first rule's
error. -/
theorem c8_witness :
    ((Rule.unique false).validate (.list [.scalar (.int 1), .scalar (.int 1)])
        "f" "items" = .error (.valErr (.uniqueDuplicate "items" "f"))
      ∧ (Rule.unique true).validate (.list [.scalar (.int 1), .scalar (.int 1)])
        "f" "items" = .error (.valErr (.uniqueDuplicate "items" "f")))
    ∧ enforceParam "f" "items"
        [.validator (.unique false), .validator (.unique true)]
        (.mat (.list [.scalar (.int 1), .scalar (.int 1)]))
        (.mat (.list [.scalar (.int 1), .scalar (.int 1)]))
      = .error (.valErr (.uniqueDuplicate "items" "f")) :=
  ⟨⟨rfl, rfl⟩,
    c8_first_failure_short_circuit "f" "items" (.unique false) (.unique true)
      (.list [.scalar (.int 1), .scalar (.int 1)])
      (.valErr (.uniqueDuplicate "items" "f"))
      (.valErr (.uniqueDuplicate "items" "f")) rfl rfl⟩

/-- C10: arguments of parameters with no annotation, a non-`Annotated`
annotation, or `Annotated` metadata containing no `Validator` instance are
handed to the underlying callable unchanged and unwrapped. -/
theorem c10_pass_through (fn pn : String) (v : ArgVal)
    (metas : List AnnMeta) (h : ∀ m ∈ metas, m = .other) :
    processAnnot fn pn .empty v = .ok v
    ∧ processAnnot fn pn .plain v = .ok v
    ∧ processAnnot fn pn (.annotated metas) v = .ok v :=
  ⟨rfl, rfl, enforceParam_all_other fn pn v v metas h⟩

/-- C10 witness: two non-Validator metadata objects are skipped. -/
theorem c10_witness :
    (∀ m ∈ [AnnMeta.other, AnnMeta.other], m = AnnMeta.other)
    ∧ (processAnnot "f" "x" .empty (.mat (.scalar .none))
        = .ok (.mat (.scalar .none))
      ∧ processAnnot "f" "x" .plain (.mat (.scalar .none))
        = .ok (.mat (.scalar .none))
      ∧ processAnnot "f" "x" (.annotated [AnnMeta.other, AnnMeta.other])
          (.mat (.scalar .none))
        = .ok (.mat (.scalar .none))) :=
  ⟨by decide,
    c10_pass_through "f" "x" (.mat (.scalar .none))
      [AnnMeta.other, AnnMeta.other] (by decide)⟩

end PyEnforce
